import Mathlib

/-!
Verification of the embedding extractor of `convert_embeddings_pkl_to_json.py`.

The deserialized pickle object graph is modelled by the inductive type `PyVal`
(`None`, booleans, ints, floats, strings, lists, tuples, dicts).  Python floats
are idealized as exact rationals on input and exact reals in the arithmetic of
the pipeline; IEEE-754 rounding is outside the model.  The source treats
numpy as optional; we model the absent configuration (`np = None` after the
failed attempt to load it), so the `ndarray` branches of the source are
inactive.

Exceptions are modelled by `PyErr` (a `ValueError` or `TypeError` with its
message); fallible functions return `Except`.  The pipeline body of `main`
(after file handling, which is out of scope) is `mainPipeline`.
-/

inductive PyVal where
  | PNone : PyVal
  | PBool (b : Bool) : PyVal
  | PInt (n : ℤ) : PyVal
  | PFloat (q : ℚ) : PyVal
  | PStr (s : String) : PyVal
  | PList (l : List PyVal) : PyVal
  | PTuple (l : List PyVal) : PyVal
  | PDict (entries : List (PyVal × PyVal)) : PyVal

open PyVal

/-- Python truthiness (`bool(v)`) for the modelled values: `None`, `False`,
zero numbers, and empty strings and containers are falsy. -/
def truthy : PyVal → Bool
  | PNone => false
  | PBool b => b
  | PInt n => n != 0
  | PFloat q => q != 0
  | PStr s => s != ""
  | PList l => !l.isEmpty
  | PTuple l => !l.isEmpty
  | PDict l => !l.isEmpty

/-- Python `a or b`: `a` when truthy, else `b` (the second operand is returned
unexamined). -/
def pyOrV (a b : PyVal) : PyVal := if truthy a then a else b

/-- Decimal digits of a natural number, most significant first; the first
argument is fuel (`n + 1` suffices) so the recursion is structural. -/
def natDigitsAux : ℕ → ℕ → List Char
  | 0, _ => []
  | fuel + 1, n =>
    if n < 10 then [Char.ofNat (48 + n)]
    else natDigitsAux fuel (n / 10) ++ [Char.ofNat (48 + n % 10)]

/-- Decimal string of a natural number, as CPython prints it. -/
def natStr (n : ℕ) : String := ⟨natDigitsAux (n + 1) n⟩

/-- Decimal string of an integer, as CPython prints it. -/
def intStr (n : ℤ) : String := if n < 0 then "-" ++ natStr n.natAbs else natStr n.natAbs

/-- Python `str(v)`.  Strings, ints, bools and `None` are rendered exactly as
CPython does.  The textual contents of floats and containers are abstracted
(the development only ever applies `str` to string keys, and only uses that
`str` of a value is empty exactly for the empty string, which also holds in
CPython). -/
def pyStr : PyVal → String
  | PNone => "None"
  | PBool true => "True"
  | PBool false => "False"
  | PInt n => intStr n
  | PFloat q => intStr q.num ++ "e0"
  | PStr s => s
  | PList _ => "[...]"
  | PTuple _ => "(...)"
  | PDict _ => "\x7b...\x7d"

/-- Whether a dict key (a `PyVal`) equals the string key `k`.  In Python,
`==` between a str and a non-str builtin value is `False`, so only `PStr`
keys can match. -/
def keyMatches (v : PyVal) (k : String) : Bool :=
  match v with
  | PStr s => s == k
  | _ => false

/-- Python `d.get(k)` with default `None`, for a string key `k`.  Dicts are
modelled as insertion-ordered association lists (Python dicts have unique
keys; lookup takes the first match). -/
def pyGet (d : List (PyVal × PyVal)) (k : String) : PyVal :=
  match d.find? (fun kv => keyMatches kv.1 k) with
  | some kv => kv.2
  | none => PNone

/-- Python `k in d` for a string key. -/
def hasKey (d : List (PyVal × PyVal)) (k : String) : Bool :=
  (d.find? (fun kv => keyMatches kv.1 k)).isSome

/-- Python `isinstance(v, (list, tuple))` (the `ndarray` alternative is absent
in the modelled `np = None` configuration). -/
def isListLike : PyVal → Bool
  | PList _ => true
  | PTuple _ => true
  | _ => false

/-- The `(identifier, raw vector)` pairs produced by `extract_items`
(the dicts `{"id": ..., "vector": ...}` of the source). -/
structure ExtractedPair where
  id : String
  vector : PyVal

inductive PyErr where
  | valueError (msg : String) : PyErr
  | typeError (msg : String) : PyErr

/-- One step of the `for k, v in obj.items()` loop of `extract_items`
(the mapping branch), appending to the accumulated `items`. -/
def dictStep (items : List ExtractedPair) (kv : PyVal × PyVal) : List ExtractedPair :=
  match kv.2 with
  | PDict d =>
    if hasKey d "embedding" then items ++ [⟨pyStr kv.1, pyGet d "embedding"⟩]
    else if hasKey d "vector" then items ++ [⟨pyStr kv.1, pyGet d "vector"⟩]
    else
      match d.find? (fun kv2 => isListLike kv2.2) with
      | some kv2 => items ++ [⟨pyStr kv.1, kv2.2⟩]
      | none => items
  | PList _ => items ++ [⟨pyStr kv.1, kv.2⟩]
  | PTuple _ => items ++ [⟨pyStr kv.1, kv.2⟩]
  | _ => items

/-- The identifier resolution
`str(el.get("id") or el.get("name") or el.get("label") or f"item_{len(items)}")`
of the sequence branch, where `count` is the length of the accumulated
`items` list. -/
def seqDictId (d : List (PyVal × PyVal)) (count : ℕ) : String :=
  pyStr (pyOrV (pyGet d "id") (pyOrV (pyGet d "name")
    (pyOrV (pyGet d "label") (PStr ("item_" ++ natStr count)))))

/-- The vector resolution `el.get("embedding") or el.get("vector")` of the
sequence branch. -/
def seqDictVec (d : List (PyVal × PyVal)) : PyVal :=
  pyOrV (pyGet d "embedding") (pyGet d "vector")

/-- The identity test `v is None` of the source. -/
def isNone : PyVal → Bool
  | PNone => true
  | _ => false

/-- One step of the `for el in obj` loop of `extract_items` (the sequence
branch).  A mapping element is kept only when its resolved vector
`is not None` (the source computes `vid` before that test; both are pure,
so the order is immaterial).  A list or tuple of length two is unpacked
unconditionally. -/
def listStep (items : List ExtractedPair) (el : PyVal) : List ExtractedPair :=
  match el with
  | PDict d =>
    if isNone (seqDictVec d) then items
    else items ++ [⟨seqDictId d items.length, seqDictVec d⟩]
  | PList [a, b] => items ++ [⟨pyStr a, b⟩]
  | PTuple [a, b] => items ++ [⟨pyStr a, b⟩]
  | _ => items

/-- `extract_items(obj)`: the structure detector.  A mapping and a sequence
are scanned in order; any other top-level shape raises
`ValueError("Structure pickle non supportée directement.")`. -/
def extract_items : PyVal → Except PyErr (List ExtractedPair)
  | PDict kvs => .ok (kvs.foldl dictStep [])
  | PList els => .ok (els.foldl listStep [])
  | _ => .error (.valueError "Structure pickle non supportée directement.")

/-- Characters stripped by Python `str.strip()` (the whitespace relevant to
`float()`). -/
def isPySpace (c : Char) : Bool :=
  c == ' ' || c == '\t' || c == '\n' || c == '\r'

def trimChars (cs : List Char) : List Char :=
  ((cs.dropWhile isPySpace).reverse.dropWhile isPySpace).reverse

def digitsVal (cs : List Char) : ℕ :=
  cs.foldl (fun a c => a * 10 + (c.toNat - 48)) 0

/-- Unsigned part of a decimal float literal: digits with an optional single
point; returns the mantissa and the number of fractional digits. -/
def parseUnsigned (cs : List Char) : Option (ℤ × ℕ) :=
  let ip := cs.takeWhile Char.isDigit
  let rest := cs.dropWhile Char.isDigit
  match rest with
  | [] => if ip.isEmpty then none else some ((digitsVal ip : ℤ), 0)
  | c :: frac =>
    if (c == '.') && frac.all Char.isDigit && !(ip.isEmpty && frac.isEmpty) then
      some ((digitsVal ip * 10 ^ frac.length + digitsVal frac : ℕ), frac.length)
    else none

/-- Decimal literals accepted by CPython `float(str)`, restricted to the
forms `[+-]digits[.digits]` after stripping whitespace (exponents and the
`inf`/`nan` spellings are outside the model; no theorem depends on them).
The value of the literal is `fst / 10 ^ snd`. -/
def parseFloatLit (s : String) : Option (ℤ × ℕ) :=
  match trimChars s.data with
  | [] => none
  | c :: rest =>
    if c == '-' then (parseUnsigned rest).map (fun p => (-p.1, p.2))
    else if c == '+' then parseUnsigned rest
    else parseUnsigned (c :: rest)

/-- CPython `float(v)`: real numbers and bools convert; strings parse as
float literals or raise `ValueError`; every other type raises `TypeError`. -/
noncomputable def pyFloat : PyVal → Except PyErr ℝ
  | PBool b => .ok (if b then 1 else 0)
  | PInt n => .ok (n : ℝ)
  | PFloat q => .ok (q : ℝ)
  | PStr s =>
    match parseFloatLit s with
    | some p => .ok ((p.1 : ℝ) / (10 : ℝ) ^ p.2)
    | none => .error (.valueError "could not convert string to float")
  | _ => .error (.typeError "float() argument must be a string or a real number")

/-- The comprehension `[float(x) for x in v]`: elements convert left to
right and the first exception propagates. -/
noncomputable def coerceElems : List PyVal → Except PyErr (List ℝ)
  | [] => .ok []
  | x :: xs =>
    match pyFloat x with
    | .error e => .error e
    | .ok r =>
      match coerceElems xs with
      | .error e => .error e
      | .ok rs => .ok (r :: rs)

/-- `coerce_vector(v)`: lists and tuples are converted element-wise by
`float`; every other runtime type raises
`ValueError("Format de vecteur non supporté")`.  (The `ndarray` branch is
absent in the modelled `np = None` configuration.) -/
noncomputable def coerce_vector : PyVal → Except PyErr (List ℝ)
  | PList l => coerceElems l
  | PTuple l => coerceElems l
  | _ => .error (.valueError "Format de vecteur non supporté")

/-- `detect_dimension(vec)`: `len(list(vec))`; on a materialized list the
`try` branch always succeeds, so the `-1` branch is unreachable. -/
def detect_dimension (v : List ℝ) : ℤ := v.length

/-- The `norm = math.sqrt(sum(x*x for x in arr))` of `normalize_vector`. -/
noncomputable def l2norm (v : List ℝ) : ℝ :=
  Real.sqrt (List.sum (v.map (fun x => x * x)))

/-- `normalize_vector(v, eps)`: Euclidean norm, returning the input when the
norm is below `eps`, otherwise dividing every component by the norm.
(`arr = list(float(x) for x in v)` is the identity on a list of floats.) -/
noncomputable def normalize_vector (v : List ℝ) (eps : ℝ) : List ℝ :=
  if l2norm v < eps then v else v.map (fun x => x / l2norm v)

/-- The default `eps = 1e-12` of `normalize_vector`, idealized as exact. -/
noncomputable def defaultEps : ℝ := 1 / 10 ^ 12

/-- `round_vector(v, precision)`: each component becomes
`floor(x * factor + 0.5) / factor`, with `factor = 10 ** precision` written
inline. -/
noncomputable def round_vector (v : List ℝ) (precision : ℤ) : List ℝ :=
  v.map (fun x =>
    ((⌊x * (10 : ℝ) ^ precision + 1 / 2⌋ : ℤ) : ℝ) / (10 : ℝ) ^ precision)

/-- The option surface of `main` that reaches the data path. -/
structure Opts where
  precision : ℤ
  maxItems : Option ℤ
  sortFlag : Bool
  normalizeFlag : Bool

/-- Lexicographic comparison of code-point lists, the order Python uses on
strings. -/
def strLeAux : List Char → List Char → Bool
  | [], _ => true
  | _ :: _, [] => false
  | a :: as, b :: bs =>
    if a.toNat < b.toNat then true
    else if b.toNat < a.toNat then false
    else strLeAux as bs

def strLe (a b : String) : Bool := strLeAux a.data b.data

/-- The sort key relation of `items.sort(key=lambda x: x["id"])`. -/
def idLe (a b : ExtractedPair) : Prop := strLe a.id b.id = true

instance : DecidableRel idLe := fun a b => inferInstanceAs (Decidable (strLe a.id b.id = true))

/-- `items.sort(key=lambda x: x["id"])`: Python list.sort is a stable sort by
the key; insertion sort over the same total preorder computes the same
(unique) stable result. -/
def sortItems (items : List ExtractedPair) : List ExtractedPair :=
  List.insertionSort idLe items

/-- Python `items[:n]`: the first `n` elements for `n ≥ 0`, all but the last
`-n` for `n < 0`. -/
def pySliceTo (l : List ExtractedPair) (n : ℤ) : List ExtractedPair :=
  if 0 ≤ n then l.take n.toNat else l.take (l.length - n.natAbs)

/-- `if args.sort: items.sort(...)`. -/
def sortStage (flag : Bool) (items : List ExtractedPair) : List ExtractedPair :=
  if flag then sortItems items else items

/-- `if args.max_items: items = items[:args.max_items]` — the guard is
Python truthiness, so `None` and `0` both leave the list untouched. -/
def truncateStage (m : Option ℤ) (items : List ExtractedPair) : List ExtractedPair :=
  match m with
  | some n => if n = 0 then items else pySliceTo items n
  | none => items

/-- The per-item vector transformation of the processing loop:
optional L2 normalization, then rounding at the configured precision. -/
noncomputable def transformVec (o : Opts) (vec : List ℝ) : List ℝ :=
  round_vector (if o.normalizeFlag then normalize_vector vec defaultEps else vec) o.precision

/-- A record `{"id": ..., "vector": ...}` of the output document. -/
structure CanonicalRecord where
  id : String
  vector : List ℝ

/-- One iteration of the processing loop of `main`. -/
noncomputable def processItem (o : Opts) (it : ExtractedPair) : Except PyErr CanonicalRecord :=
  match coerce_vector it.vector with
  | .error e => .error e
  | .ok vec => .ok ⟨it.id, transformVec o vec⟩

noncomputable def processAll (o : Opts) : List ExtractedPair → Except PyErr (List CanonicalRecord)
  | [] => .ok []
  | it :: rest =>
    match processItem o it with
    | .error e => .error e
    | .ok r =>
      match processAll o rest with
      | .error e => .error e
      | .ok rs => .ok (r :: rs)

/-- The output document `out_obj`. -/
structure OutputDocument where
  version : ℤ
  dimension : ℤ
  count : ℕ
  embeddings : List CanonicalRecord

/-- Terminal failures of the pipeline: an uncaught exception (the
`UnsupportedStructure` `ValueError` of `extract_items` or a coercion
failure), or the `exit(3)` taken when no embeddings were detected
(`NoEmbeddingsFound`). -/
inductive RunErr where
  | exc (e : PyErr) : RunErr
  | noEmbeddingsFound : RunErr

/-- The dimension recorded by the loop: `detect_dimension` of the first
processed vector (the loop sets it on the first iteration), `0` when
nothing was processed (`dimension if dimension is not None else 0`). -/
def dimensionOf : List CanonicalRecord → ℤ
  | [] => 0
  | r :: _ => detect_dimension r.vector

/-- The data path of `main` after the pickle has been loaded: extract,
fail on empty, sort, truncate, process each item, and assemble `out_obj`
(`version`, `dimension`, `count`, `embeddings`).  Argument parsing, file
handling and JSON serialization are out of scope. -/
noncomputable def mainPipeline (data : PyVal) (o : Opts) : Except RunErr OutputDocument :=
  match extract_items data with
  | .error e => .error (.exc e)
  | .ok items =>
    if items.isEmpty then .error .noEmbeddingsFound
    else
      match processAll o (truncateStage o.maxItems (sortStage o.sortFlag items)) with
      | .error e => .error (.exc e)
      | .ok processed => .ok ⟨1, dimensionOf processed, processed.length, processed⟩

/-!  Order facts for the sort key comparison. -/

lemma strLeAux_refl : ∀ cs, strLeAux cs cs = true
  | [] => rfl
  | c :: cs => by simp [strLeAux, lt_irrefl, strLeAux_refl cs]

lemma strLe_refl (s : String) : strLe s s = true := strLeAux_refl s.data

lemma strLeAux_total : ∀ as bs, strLeAux as bs = true ∨ strLeAux bs as = true
  | [], _ => Or.inl rfl
  | _ :: _, [] => Or.inr rfl
  | a :: as, b :: bs => by
    by_cases h1 : a.toNat < b.toNat
    · left
      simp [strLeAux, h1]
    · by_cases h2 : b.toNat < a.toNat
      · right
        simp [strLeAux, h2]
      · rcases strLeAux_total as bs with h | h
        · left
          simp [strLeAux, h1, h2, h]
        · right
          simp [strLeAux, h1, h2, h]

lemma strLeAux_trans : ∀ as bs cs, strLeAux as bs = true → strLeAux bs cs = true →
    strLeAux as cs = true
  | [], _, _ => fun _ _ => rfl
  | _ :: _, [], _ => fun h _ => by simp [strLeAux] at h
  | _ :: _, _ :: _, [] => fun _ h => by simp [strLeAux] at h
  | a :: as, b :: bs, c :: cs => fun h1 h2 => by
    simp only [strLeAux] at h1 h2 ⊢
    by_cases hab : a.toNat < b.toNat
    · by_cases hbc : b.toNat < c.toNat
      · simp [show a.toNat < c.toNat from lt_trans hab hbc]
      · by_cases hcb : c.toNat < b.toNat
        · simp [hbc, hcb] at h2
        · have hbc' : b.toNat = c.toNat := by omega
          simp [show a.toNat < c.toNat from hbc' ▸ hab]
    · by_cases hba : b.toNat < a.toNat
      · simp [hab, hba] at h1
      · have hab' : a.toNat = b.toNat := by omega
        simp only [hab, if_false, hba, if_false] at h1 ⊢
        by_cases hbc : b.toNat < c.toNat
        · simp [hab' ▸ hbc]
        · by_cases hcb : c.toNat < b.toNat
          · simp [hbc, hcb] at h2
          · simp only [hbc, if_false, hcb, if_false] at h2
            simp [show ¬ a.toNat < c.toNat by omega, show ¬ c.toNat < a.toNat by omega,
              strLeAux_trans as bs cs h1 h2]

instance : IsTotal ExtractedPair idLe :=
  ⟨fun a b => strLeAux_total a.id.data b.id.data⟩

instance : IsTrans ExtractedPair idLe :=
  ⟨fun _ _ _ h1 h2 => strLeAux_trans _ _ _ h1 h2⟩

/-!  Stability of the sort. -/

lemma filter_orderedInsert (s : String) (a : ExtractedPair) :
    ∀ t, (List.orderedInsert idLe a t).filter (fun p => p.id == s) =
      if a.id == s then a :: t.filter (fun p => p.id == s)
      else t.filter (fun p => p.id == s)
  | [] => by
    by_cases has : a.id == s <;> simp [List.orderedInsert, has]
  | b :: t => by
    simp only [List.orderedInsert]
    by_cases hab : idLe a b
    · rw [if_pos hab]
      by_cases has : a.id == s <;> simp [List.filter_cons, has]
    · rw [if_neg hab]
      have hrec := filter_orderedInsert s a t
      by_cases has : a.id == s
      · have ha : a.id = s := by exact beq_iff_eq.mp has
        have hbs : (b.id == s) = false := by
          rw [beq_eq_false_iff_ne]
          intro hbe
          exact hab (show strLe a.id b.id = true from ha ▸ hbe ▸ strLe_refl s)
        simp [List.filter_cons, hbs, hrec, has]
      · simp [List.filter_cons, hrec, has]

lemma sortItems_stable (items : List ExtractedPair) (s : String) :
    (sortItems items).filter (fun p => p.id == s) = items.filter (fun p => p.id == s) := by
  induction items with
  | nil => rfl
  | cons x t ih =>
    simp only [sortItems, List.insertionSort] at ih ⊢
    rw [filter_orderedInsert, ih]
    by_cases hx : x.id == s <;> simp [List.filter_cons, hx]

/-!  Non-emptiness of the strings produced by `str`. -/

lemma natDigitsAux_ne_nil (fuel n : ℕ) : natDigitsAux (fuel + 1) n ≠ [] := by
  rcases Nat.lt_or_ge n 10 with h | h
  · simp [natDigitsAux, h]
  · simp [natDigitsAux, Nat.not_lt.mpr h]

lemma ne_empty_of_data_ne_nil (s : String) (h : s.data ≠ []) : s ≠ "" :=
  fun he => h (by rw [he])

lemma eq_empty_of_data_eq_nil (s : String) (h : s.data = []) : s = "" := by
  cases s with
  | mk l =>
    cases h
    rfl

lemma natStr_ne_empty (n : ℕ) : natStr n ≠ "" :=
  ne_empty_of_data_ne_nil _ (natDigitsAux_ne_nil n n)

lemma intStr_ne_empty (n : ℤ) : intStr n ≠ "" := by
  unfold intStr
  split
  · exact ne_empty_of_data_ne_nil _ (by simp [show ("-" ++ natStr n.natAbs).data = '-' :: (natStr n.natAbs).data from rfl])
  · exact natStr_ne_empty _

lemma append_ne_empty_of_left (a b : String) (h : a ≠ "") : a ++ b ≠ "" := by
  apply ne_empty_of_data_ne_nil
  show a.data ++ b.data ≠ []
  intro hd
  rcases List.append_eq_nil.mp hd with ⟨ha, _⟩
  exact h (eq_empty_of_data_eq_nil a ha)

lemma pyStr_ne_empty_of_truthy : ∀ v, truthy v = true → pyStr v ≠ "" := by
  intro v h
  cases v with
  | PNone => simp [truthy] at h
  | PBool b =>
    simp [truthy] at h
    subst h
    simp [pyStr]
  | PInt n => exact intStr_ne_empty n
  | PFloat q => exact append_ne_empty_of_left _ _ (intStr_ne_empty q.num)
  | PStr s =>
    simp [truthy] at h
    simpa [pyStr] using h
  | PList l => simp [pyStr]
  | PTuple l => simp [pyStr]
  | PDict l => simp [pyStr]

lemma pyStr_pyOrV_ne_empty (a b : PyVal) (hb : pyStr b ≠ "") : pyStr (pyOrV a b) ≠ "" := by
  unfold pyOrV
  split
  · exact pyStr_ne_empty_of_truthy a (by assumption)
  · exact hb

lemma seqDictId_ne_empty (d : List (PyVal × PyVal)) (count : ℕ) : seqDictId d count ≠ "" := by
  unfold seqDictId
  apply pyStr_pyOrV_ne_empty
  apply pyStr_pyOrV_ne_empty
  apply pyStr_pyOrV_ne_empty
  show ("item_" ++ natStr count) ≠ ""
  exact append_ne_empty_of_left _ _ (by decide)

/-!  Behaviour of the sequence-branch step function. -/

lemma append_singleton_ne (items : List ExtractedPair) (p : ExtractedPair) :
    items ++ [p] ≠ items := by
  intro h
  have := congrArg List.length h
  simp at this

lemma isNone_eq_true_iff (v : PyVal) : isNone v = true ↔ v = PNone := by
  cases v <;> simp [isNone]

lemma isNone_eq_false_iff (v : PyVal) : isNone v = false ↔ v ≠ PNone := by
  cases v <;> simp [isNone]

lemma listStep_dict_drop (items : List ExtractedPair) (d : List (PyVal × PyVal))
    (h : seqDictVec d = PNone) : listStep items (PDict d) = items := by
  simp [listStep, h, isNone]

lemma listStep_dict_emit (items : List ExtractedPair) (d : List (PyVal × PyVal))
    (h : seqDictVec d ≠ PNone) :
    listStep items (PDict d) = items ++ [⟨seqDictId d items.length, seqDictVec d⟩] := by
  simp [listStep, (isNone_eq_false_iff (seqDictVec d)).mpr h]

lemma seqDictVec_of_truthy (d : List (PyVal × PyVal))
    (h : truthy (pyGet d "embedding") = true) : seqDictVec d = pyGet d "embedding" := by
  simp [seqDictVec, pyOrV, h]

lemma seqDictVec_of_falsy (d : List (PyVal × PyVal))
    (h : truthy (pyGet d "embedding") = false) : seqDictVec d = pyGet d "vector" := by
  simp [seqDictVec, pyOrV, h]

lemma seqDictVec_eq_none_iff (d : List (PyVal × PyVal)) :
    seqDictVec d = PNone ↔
      truthy (pyGet d "embedding") = false ∧ pyGet d "vector" = PNone := by
  rcases hb : truthy (pyGet d "embedding")
  · rw [seqDictVec_of_falsy d hb]
    simp
  · rw [seqDictVec_of_truthy d hb]
    constructor
    · intro he
      rw [he] at hb
      simp [truthy] at hb
    · rintro ⟨h1, _⟩
      simp at h1

lemma listStep_dict_eq_self_iff (items : List ExtractedPair) (d : List (PyVal × PyVal)) :
    listStep items (PDict d) = items ↔
      truthy (pyGet d "embedding") = false ∧ pyGet d "vector" = PNone := by
  rw [← seqDictVec_eq_none_iff]
  constructor
  · intro h
    by_contra hne
    rw [listStep_dict_emit items d hne] at h
    exact append_singleton_ne items _ h
  · exact listStep_dict_drop items d

/-- The `ExtractedPair` invariant claimed by the specification: a non-empty
identifier and a non-null vector. -/
def pairInvariant (p : ExtractedPair) : Prop := p.id ≠ "" ∧ p.vector ≠ PNone

/-- Claim C1, counterexample: on the sequence input `[("", None)]` the
detector emits the pair `("", None)` — its 2-tuple branch stringifies the
label (here the empty string) and takes the second component verbatim
(here `None`), so an emitted pair can have an empty id and a null vector,
contradicting the claimed invariant. -/
theorem pair_invariant_counterexample :
    extract_items (PList [PTuple [PStr "", PNone]]) = .ok [⟨"", PNone⟩] ∧
    ¬ pairInvariant ⟨"", PNone⟩ :=
  ⟨rfl, fun h => h.1 rfl⟩

/-- Claim C1, amended: every pair emitted from a mapping-like element of a
sequence input satisfies the invariant (non-empty id, non-null vector):
such an element is either dropped or contributes exactly one invariant-
satisfying pair.  Pairs emitted from 2-tuple elements instead carry the
stringified first component (possibly empty) and the second component
verbatim (possibly null). -/
theorem pair_invariant_amended :
    (∀ items d, listStep items (PDict d) = items ∨
      ∃ p, listStep items (PDict d) = items ++ [p] ∧ pairInvariant p) ∧
    (∀ items a b, listStep items (PTuple [a, b]) = items ++ [⟨pyStr a, b⟩]) := by
  constructor
  · intro items d
    by_cases hv : seqDictVec d = PNone
    · exact Or.inl (listStep_dict_drop items d hv)
    · exact Or.inr ⟨_, listStep_dict_emit items d hv, seqDictId_ne_empty d items.length, hv⟩
  · intro items a b
    rfl

/-- Claim C5, counterexample: on the sequence element `{"embedding": []}`
the key `"embedding"` yields the non-null value `[]`, yet the element is
dropped — the resolution `el.get("embedding") or el.get("vector")` skips
falsy values (such as the empty list), not merely null ones, so the claimed
"drop exactly when neither key yields a non-null value" fails. -/
theorem sequence_resolution_counterexample :
    extract_items (PList [PDict [(PStr "embedding", PList [])]]) = .ok [] ∧
    pyGet [(PStr "embedding", PList [])] "embedding" = PList [] ∧
    PList [] ≠ PNone :=
  ⟨rfl, rfl, fun h => PyVal.noConfusion h⟩

/-- Claim C5, amended: for sequence inputs the detector folds `listStep`
over the elements; a mapping-like element is dropped exactly when its
`"embedding"` value is falsy and its `"vector"` value is null; the vector
is the `"embedding"` value when truthy and otherwise the `"vector"` value;
the identifier is the first truthy value among the keys `"id"`, `"name"`,
`"label"` (falsy values fall through), with the synthetic `item_<n>`
fallback in which `n` is the number of pairs emitted so far (the length of
the accumulator, not the element index). -/
theorem sequence_resolution_amended :
    (∀ els, extract_items (PList els) = .ok (els.foldl listStep [])) ∧
    (∀ items d, listStep items (PDict d) = items ↔
      truthy (pyGet d "embedding") = false ∧ pyGet d "vector" = PNone) ∧
    (∀ items d, truthy (pyGet d "embedding") = true →
      listStep items (PDict d) =
        items ++ [⟨seqDictId d items.length, pyGet d "embedding"⟩]) ∧
    (∀ items d, truthy (pyGet d "embedding") = false → pyGet d "vector" ≠ PNone →
      listStep items (PDict d) =
        items ++ [⟨seqDictId d items.length, pyGet d "vector"⟩]) ∧
    (∀ d count, truthy (pyGet d "id") = true → seqDictId d count = pyStr (pyGet d "id")) ∧
    (∀ d count, truthy (pyGet d "id") = false → truthy (pyGet d "name") = true →
      seqDictId d count = pyStr (pyGet d "name")) ∧
    (∀ d count, truthy (pyGet d "id") = false → truthy (pyGet d "name") = false →
      truthy (pyGet d "label") = true → seqDictId d count = pyStr (pyGet d "label")) ∧
    (∀ d count, truthy (pyGet d "id") = false → truthy (pyGet d "name") = false →
      truthy (pyGet d "label") = false → seqDictId d count = "item_" ++ natStr count) := by
  refine ⟨fun els => rfl, listStep_dict_eq_self_iff, ?_, ?_, ?_, ?_, ?_, ?_⟩
  · intro items d h
    have hne : seqDictVec d ≠ PNone := by
      rw [seqDictVec_of_truthy d h]
      intro he
      rw [he] at h
      simp [truthy] at h
    rw [listStep_dict_emit items d hne, seqDictVec_of_truthy d h]
  · intro items d h hv
    have hne : seqDictVec d ≠ PNone := by
      rw [seqDictVec_of_falsy d h]
      exact hv
    rw [listStep_dict_emit items d hne, seqDictVec_of_falsy d h]
  · intro d count h
    simp [seqDictId, pyOrV, h]
  · intro d count h1 h2
    simp [seqDictId, pyOrV, h1, h2]
  · intro d count h1 h2 h3
    simp [seqDictId, pyOrV, h1, h2, h3]
  · intro d count h1 h2 h3
    simp [seqDictId, pyOrV, h1, h2, h3, pyStr]

/-- Witness for the amended claim C5 at concrete inputs. -/
theorem sequence_resolution_witness :
    listStep [] (PDict [(PStr "embedding", PList [PInt 1])]) =
      [] ++ [⟨seqDictId [(PStr "embedding", PList [PInt 1])] 0,
        pyGet [(PStr "embedding", PList [PInt 1])] "embedding"⟩] ∧
    listStep [] (PDict [(PStr "vector", PList [PInt 2])]) =
      [] ++ [⟨seqDictId [(PStr "vector", PList [PInt 2])] 0,
        pyGet [(PStr "vector", PList [PInt 2])] "vector"⟩] ∧
    seqDictId ([] : List (PyVal × PyVal)) 0 = "item_" ++ natStr 0 :=
  ⟨sequence_resolution_amended.2.2.1 [] _ rfl,
   sequence_resolution_amended.2.2.2.1 [] _ rfl (fun h => PyVal.noConfusion h),
   sequence_resolution_amended.2.2.2.2.2.2.2 [] 0 rfl rfl rfl⟩

/-!  Top-level shape tests and the error taxonomy. -/

def isDict : PyVal → Bool
  | PDict _ => true
  | _ => false

def isList : PyVal → Bool
  | PList _ => true
  | _ => false

/-- Claim C3: an input whose top level is neither a mapping nor a sequence
makes the pipeline fail with the `UnsupportedStructure` `ValueError` raised
by `extract_items`; a recognized structure from which zero pairs are
extracted (for instance the empty mapping, whose extraction is `ok []`)
fails with the distinct `NoEmbeddingsFound` condition; the two failures are
different values, so no run returns a silently empty success in either
situation. -/
theorem no_silent_empty_success :
    (∀ g o, isDict g = false → isList g = false →
      mainPipeline g o =
        .error (.exc (.valueError "Structure pickle non supportée directement."))) ∧
    (∀ g o, extract_items g = .ok [] → mainPipeline g o = .error .noEmbeddingsFound) ∧
    (∀ e, RunErr.exc e ≠ RunErr.noEmbeddingsFound) := by
  refine ⟨?_, ?_, fun e h => RunErr.noConfusion h⟩
  · intro g o h1 h2
    cases g
    case PList => simp [isList] at h2
    case PDict => simp [isDict] at h1
    all_goals rfl
  · intro g o h
    simp [mainPipeline, h]

/-- Witness for claim C3: a bare number fails with the structure error and
the empty mapping fails with `NoEmbeddingsFound`. -/
theorem no_silent_empty_success_witness :
    mainPipeline (PInt 42) ⟨6, none, false, false⟩ =
      .error (.exc (.valueError "Structure pickle non supportée directement.")) ∧
    mainPipeline (PDict []) ⟨6, none, false, false⟩ = .error .noEmbeddingsFound :=
  ⟨no_silent_empty_success.1 (PInt 42) _ rfl rfl,
   no_silent_empty_success.2.1 (PDict []) _ rfl⟩

/-!  Classification of `coerce_vector`. -/

/-- The numeric scalars accepted by `float` without parsing. -/
def isNumericScalar : PyVal → Bool
  | PBool _ => true
  | PInt _ => true
  | PFloat _ => true
  | _ => false

/-- The real value of a numeric scalar (only applied under
`isNumericScalar`). -/
noncomputable def numVal : PyVal → ℝ
  | PBool b => if b then 1 else 0
  | PInt n => (n : ℝ)
  | PFloat q => (q : ℝ)
  | _ => 0

lemma pyFloat_numeric (x : PyVal) (h : isNumericScalar x = true) :
    pyFloat x = .ok (numVal x) := by
  cases x <;> first | rfl | simp [isNumericScalar] at h

lemma coerceElems_numeric : ∀ xs, (∀ x ∈ xs, isNumericScalar x = true) →
    coerceElems xs = .ok (xs.map numVal)
  | [] => fun _ => rfl
  | x :: xs => fun h => by
    have hx := h x (List.mem_cons_self x xs)
    have hrest := coerceElems_numeric xs (fun y hy => h y (List.mem_cons_of_mem x hy))
    simp only [coerceElems, pyFloat_numeric x hx, hrest, List.map_cons]

lemma coerceElems_none_error : ∀ xs ys, (∀ x ∈ xs, isNumericScalar x = true) →
    coerceElems (xs ++ PNone :: ys) =
      .error (.typeError "float() argument must be a string or a real number")
  | [], _ => fun _ => rfl
  | x :: xs, ys => fun h => by
    have hx := h x (List.mem_cons_self x xs)
    have hrest := coerceElems_none_error xs ys (fun y hy => h y (List.mem_cons_of_mem x hy))
    simp only [List.cons_append, coerceElems, pyFloat_numeric x hx, List.append_eq, hrest]

/-- Claim C4, amended: `coerce_vector` on a list or tuple of numeric
elements returns the element-wise float casts; every non-array-like value
(mappings, scalars, strings, `None`) fails with the `UnsupportedVectorType`
`ValueError`; a `None` element inside an array-like value also fails, but
with the `TypeError` of the `float` cast rather than a failure of the
`UnsupportedVectorType` kind; and a numeric string element is accepted by
`float` rather than failing. -/
theorem coerce_vector_classification :
    (∀ g, isListLike g = false →
      coerce_vector g = .error (.valueError "Format de vecteur non supporté")) ∧
    (∀ xs, (∀ x ∈ xs, isNumericScalar x = true) →
      coerce_vector (PList xs) = .ok (xs.map numVal)) ∧
    (∀ xs, (∀ x ∈ xs, isNumericScalar x = true) →
      coerce_vector (PTuple xs) = .ok (xs.map numVal)) ∧
    (∀ xs ys, (∀ x ∈ xs, isNumericScalar x = true) →
      coerce_vector (PList (xs ++ PNone :: ys)) =
        .error (.typeError "float() argument must be a string or a real number")) ∧
    coerce_vector (PList [PStr "1.5"]) = .ok [(3 : ℝ) / 2] := by
  refine ⟨?_, ?_, ?_, ?_, ?_⟩
  · intro g hg
    cases g <;> first | rfl | simp [isListLike] at hg
  · intro xs h
    exact coerceElems_numeric xs h
  · intro xs h
    exact coerceElems_numeric xs h
  · intro xs ys h
    exact coerceElems_none_error xs ys h
  · have hp : pyFloat (PStr "1.5") = .ok (((15 : ℤ) : ℝ) / (10 : ℝ) ^ (1 : ℕ)) := rfl
    simp only [coerce_vector, coerceElems, hp]
    norm_num

/-- Claim C4, counterexample: the non-numeric element `None` inside a list
makes `coerce_vector` fail with a `TypeError`, which is not a failure of
the `UnsupportedVectorType` kind (that kind is the `ValueError` the source
raises itself), contradicting "a non-numeric element produces the same
kind of failure". -/
theorem coerce_kind_counterexample :
    coerce_vector (PList [PNone]) =
      .error (.typeError "float() argument must be a string or a real number") ∧
    ∀ s, PyErr.typeError "float() argument must be a string or a real number" ≠
      PyErr.valueError s :=
  ⟨rfl, fun _ h => PyErr.noConfusion h⟩

/-- Witness for the amended claim C4 at concrete inputs. -/
theorem coerce_vector_classification_witness :
    coerce_vector (PDict []) = .error (.valueError "Format de vecteur non supporté") ∧
    coerce_vector (PList [PInt 1, PFloat 2]) = .ok ([PInt 1, PFloat 2].map numVal) ∧
    coerce_vector (PTuple [PBool true]) = .ok ([PBool true].map numVal) ∧
    coerce_vector (PList ([PInt 1] ++ PNone :: [PInt 2])) =
      .error (.typeError "float() argument must be a string or a real number") := by
  refine ⟨coerce_vector_classification.1 (PDict []) rfl,
    coerce_vector_classification.2.1 [PInt 1, PFloat 2] ?_,
    coerce_vector_classification.2.2.1 [PBool true] ?_,
    coerce_vector_classification.2.2.2.1 [PInt 1] [PInt 2] ?_⟩
  all_goals intro x hx
  all_goals fin_cases hx <;> rfl

/-!  The rounding and normalization claims. -/

/-- Claim C6: `round_vector` maps every component `x` independently to
`floor(x * 10^precision + 0.5) / 10^precision`; in particular the ties
`0.5` and `2.5` round up to `1` and `3` (round-half-to-even would give `0`
and `2`), so the rule is round-half-up. -/
theorem round_vector_half_up :
    (∀ (v : List ℝ) (p : ℕ), round_vector v (p : ℤ) =
      v.map (fun x => ((⌊x * 10 ^ p + 1 / 2⌋ : ℤ) : ℝ) / 10 ^ p)) ∧
    round_vector [(1 : ℝ) / 2] 0 = [1] ∧
    round_vector [(5 : ℝ) / 2] 0 = [3] := by
  refine ⟨?_, ?_, ?_⟩
  · intro v p
    simp [round_vector, zpow_natCast]
  · simp only [round_vector, List.map_cons, List.map_nil, zpow_zero]
    norm_num
  · simp only [round_vector, List.map_cons, List.map_nil, zpow_zero]
    norm_num

lemma roundOne_idem (p : ℤ) (x : ℝ) :
    ((⌊((⌊x * (10 : ℝ) ^ p + 1 / 2⌋ : ℤ) : ℝ) / (10 : ℝ) ^ p * (10 : ℝ) ^ p + 1 / 2⌋ : ℤ) : ℝ) /
        (10 : ℝ) ^ p =
      ((⌊x * (10 : ℝ) ^ p + 1 / 2⌋ : ℤ) : ℝ) / (10 : ℝ) ^ p := by
  have hf : (10 : ℝ) ^ p ≠ 0 := zpow_ne_zero p (by norm_num)
  rw [div_mul_cancel₀ _ hf, Int.floor_int_add]
  norm_num

/-- Claim C8: rounding an already-rounded vector at the same precision
returns it unchanged (for every integer precision, in particular the
non-negative ones). -/
theorem round_vector_idempotent :
    ∀ (v : List ℝ) (p : ℤ), round_vector (round_vector v p) p = round_vector v p := by
  intro v p
  induction v with
  | nil => rfl
  | cons x xs ih =>
    simp only [round_vector, List.map_cons] at ih ⊢
    rw [List.cons.injEq]
    exact ⟨roundOne_idem p x, ih⟩

/-- Claim C7: `normalize_vector` returns the input unchanged whenever the
Euclidean norm is below `eps` (in particular for every all-zero vector and
positive `eps`), and otherwise divides every component by the norm. -/
theorem normalize_vector_spec :
    (∀ (v : List ℝ) (eps : ℝ), l2norm v < eps → normalize_vector v eps = v) ∧
    (∀ (v : List ℝ) (eps : ℝ), ¬ l2norm v < eps →
      normalize_vector v eps = v.map (fun x => x / l2norm v)) ∧
    (∀ (n : ℕ) (eps : ℝ), 0 < eps →
      normalize_vector (List.replicate n 0) eps = List.replicate n 0) := by
  refine ⟨?_, ?_, ?_⟩
  · intro v eps h
    simp [normalize_vector, h]
  · intro v eps h
    simp [normalize_vector, h]
  · intro n eps heps
    have hz : l2norm (List.replicate n (0 : ℝ)) = 0 := by
      simp [l2norm]
    simp [normalize_vector, hz, heps]

/-- Witness for claim C7: a vector below the threshold is returned
unchanged, `[3, 4]` is normalized to `[3/5, 4/5]`, and the all-zero vector
is unchanged at the default epsilon. -/
theorem normalize_vector_spec_witness :
    normalize_vector [0] 1 = [0] ∧
    normalize_vector [3, 4] 1 = [3 / 5, 4 / 5] ∧
    normalize_vector (List.replicate 2 0) defaultEps = List.replicate 2 0 := by
  have h1 : l2norm [(0 : ℝ)] = 0 := by simp [l2norm]
  have h2 : l2norm [(3 : ℝ), 4] = 5 := by
    have hsq : ((3 : ℝ) * 3 + (4 * 4 + 0)) = 5 ^ 2 := by norm_num
    simp only [l2norm, List.map_cons, List.map_nil, List.sum_cons, List.sum_nil]
    rw [hsq, Real.sqrt_sq (by norm_num)]
  refine ⟨?_, ?_, ?_⟩
  · exact normalize_vector_spec.1 [0] 1 (by rw [h1]; norm_num)
  · have hm := normalize_vector_spec.2.1 [3, 4] 1 (by rw [h2]; norm_num)
    rw [hm]
    simp [h2]
  · exact normalize_vector_spec.2.2 2 defaultEps (by norm_num [defaultEps])

/-- Claim C10: both per-record stages preserve vector length, and hence the
per-item transformation of the pipeline (optional normalization followed by
rounding) yields a canonical vector of the same length as the coerced
vector. -/
theorem transform_preserves_length :
    (∀ (v : List ℝ) (eps : ℝ), (normalize_vector v eps).length = v.length) ∧
    (∀ (v : List ℝ) (p : ℤ), (round_vector v p).length = v.length) ∧
    (∀ (o : Opts) (v : List ℝ), (transformVec o v).length = v.length) := by
  have hn : ∀ (v : List ℝ) (eps : ℝ), (normalize_vector v eps).length = v.length := by
    intro v eps
    rw [normalize_vector]
    split <;> simp
  have hr : ∀ (v : List ℝ) (p : ℤ), (round_vector v p).length = v.length := by
    intro v p
    simp [round_vector]
  refine ⟨hn, hr, ?_⟩
  intro o v
  rw [transformVec, hr]
  split
  · exact hn v defaultEps
  · rfl

/-!  Helper lemmas for evaluating concrete pipeline runs. -/

lemma processItem_ok (o : Opts) (it : ExtractedPair) (vec : List ℝ)
    (hc : coerce_vector it.vector = .ok vec) :
    processItem o it = .ok ⟨it.id, transformVec o vec⟩ := by
  simp only [processItem, hc]

lemma processAll_cons (o : Opts) (it : ExtractedPair) (rest : List ExtractedPair)
    (r : CanonicalRecord) (rs : List CanonicalRecord)
    (h1 : processItem o it = .ok r) (h2 : processAll o rest = .ok rs) :
    processAll o (it :: rest) = .ok (r :: rs) := by
  simp only [processAll, h1, h2]

lemma mainPipeline_ok (g : PyVal) (o : Opts) (items sel : List ExtractedPair)
    (processed : List CanonicalRecord)
    (hex : extract_items g = .ok items) (hne : items.isEmpty = false)
    (hsel : truncateStage o.maxItems (sortStage o.sortFlag items) = sel)
    (hp : processAll o sel = .ok processed) :
    mainPipeline g o = .ok ⟨1, dimensionOf processed, processed.length, processed⟩ := by
  simp [mainPipeline, hex, hne, hsel, hp]

/-- Claim C2, counterexample: with `max_items = 0` set, the output is not
the first `0` pairs — `if args.max_items:` is a truthiness test, so the
value `0` disables truncation entirely and the single extracted pair
survives. -/
theorem truncation_zero_counterexample :
    ∃ d, mainPipeline (PDict [(PStr "a", PList [PInt 1])]) ⟨0, some 0, false, false⟩ = .ok d ∧
      d.embeddings.length ≠ 0 := by
  have hco : coerce_vector (PList [PInt 1]) = .ok [((1 : ℤ) : ℝ)] := rfl
  have hpi : processItem ⟨0, some 0, false, false⟩ ⟨"a", PList [PInt 1]⟩ =
      .ok ⟨"a", transformVec ⟨0, some 0, false, false⟩ [((1 : ℤ) : ℝ)]⟩ :=
    processItem_ok _ _ _ hco
  have hp : processAll ⟨0, some 0, false, false⟩ [⟨"a", PList [PInt 1]⟩] =
      .ok [⟨"a", transformVec ⟨0, some 0, false, false⟩ [((1 : ℤ) : ℝ)]⟩] :=
    processAll_cons _ _ _ _ _ hpi rfl
  refine ⟨_, mainPipeline_ok _ _ _ _ _ rfl rfl rfl hp, ?_⟩
  simp

/-- Claim C2, amended: sorting precedes truncation.  With `sort_by_id` on
and a positive `max_items = n`, the surviving pairs are exactly the first
`n` of the sorted sequence (`max_items = 0` is falsy and disables
truncation, and a negative value slices from the end, Python-style); the
sort is sorted under the lexicographic key order and stable (pairs with
equal identifiers keep their relative order); on the mapping with keys
`bob`, `alice` and `max_items = 1`, the output contains only `alice`. -/
theorem sort_precedes_truncation :
    (∀ (items : List ExtractedPair) (n : ℤ), 0 < n →
      truncateStage (some n) (sortStage true items) = (sortItems items).take n.toNat) ∧
    (∀ items : List ExtractedPair, (sortItems items).Sorted idLe) ∧
    (∀ (items : List ExtractedPair) (s : String),
      (sortItems items).filter (fun p => p.id == s) = items.filter (fun p => p.id == s)) ∧
    (∃ d, mainPipeline (PDict [(PStr "bob", PList [PInt 1]), (PStr "alice", PList [PInt 2])])
        ⟨6, some 1, true, false⟩ = .ok d ∧ d.embeddings.map (fun r => r.id) = ["alice"]) := by
  refine ⟨?_, ?_, sortItems_stable, ?_⟩
  · intro items n hn
    simp [truncateStage, sortStage, pySliceTo, hn.ne', hn.le]
  · intro items
    exact List.sorted_insertionSort idLe items
  · have hco : coerce_vector (PList [PInt 2]) = .ok [((2 : ℤ) : ℝ)] := rfl
    have hpi : processItem ⟨6, some 1, true, false⟩ ⟨"alice", PList [PInt 2]⟩ =
        .ok ⟨"alice", transformVec ⟨6, some 1, true, false⟩ [((2 : ℤ) : ℝ)]⟩ :=
      processItem_ok _ _ _ hco
    have hp : processAll ⟨6, some 1, true, false⟩ [⟨"alice", PList [PInt 2]⟩] =
        .ok [⟨"alice", transformVec ⟨6, some 1, true, false⟩ [((2 : ℤ) : ℝ)]⟩] :=
      processAll_cons _ _ _ _ _ hpi rfl
    exact ⟨_, mainPipeline_ok _ _ _ _ _ rfl rfl rfl hp, rfl⟩

/-- Witness for the amended claim C2: truncation after sorting at a
concrete positive bound. -/
theorem sort_precedes_truncation_witness :
    truncateStage (some 1) (sortStage true [⟨"b", PNone⟩, ⟨"a", PNone⟩]) =
      (sortItems [⟨"b", PNone⟩, ⟨"a", PNone⟩]).take (1 : ℤ).toNat :=
  sort_precedes_truncation.1 [⟨"b", PNone⟩, ⟨"a", PNone⟩] 1 (by norm_num)

lemma outputDoc_header_of_mk (processed : List CanonicalRecord) :
    (OutputDocument.mk 1 (dimensionOf processed) processed.length processed).version = 1 ∧
    (OutputDocument.mk 1 (dimensionOf processed) processed.length processed).count =
      (OutputDocument.mk 1 (dimensionOf processed) processed.length processed).embeddings.length ∧
    ∀ r rest,
      (OutputDocument.mk 1 (dimensionOf processed) processed.length processed).embeddings =
        r :: rest →
      (OutputDocument.mk 1 (dimensionOf processed) processed.length processed).dimension =
        r.vector.length := by
  refine ⟨rfl, rfl, ?_⟩
  intro r rest he
  change processed = r :: rest at he
  show dimensionOf processed = _
  rw [he]
  simp [dimensionOf, detect_dimension]

/-- Claim C9: every successful run yields a document with `version = 1`,
`count` equal to the number of embedding records, and, when records exist,
`dimension` equal to the length of the first record's vector. -/
theorem output_document_header :
    ∀ (g : PyVal) (o : Opts) (d : OutputDocument), mainPipeline g o = .ok d →
      d.version = 1 ∧ d.count = d.embeddings.length ∧
      ∀ r rest, d.embeddings = r :: rest → d.dimension = r.vector.length := by
  intro g o d h
  simp only [mainPipeline] at h
  split at h
  · simp at h
  · split at h
    · simp at h
    · split at h
      · simp at h
      · rw [Except.ok.injEq] at h
        subst h
        exact outputDoc_header_of_mk _

/-- Witness for claim C9: a concrete successful run satisfies the header
properties. -/
theorem output_document_header_witness :
    ∃ d, mainPipeline (PDict [(PStr "a", PList [PInt 1])]) ⟨0, none, false, false⟩ = .ok d ∧
      d.version = 1 ∧ d.count = d.embeddings.length ∧
      ∀ r rest, d.embeddings = r :: rest → d.dimension = r.vector.length := by
  have hco : coerce_vector (PList [PInt 1]) = .ok [((1 : ℤ) : ℝ)] := rfl
  have hpi : processItem ⟨0, none, false, false⟩ ⟨"a", PList [PInt 1]⟩ =
      .ok ⟨"a", transformVec ⟨0, none, false, false⟩ [((1 : ℤ) : ℝ)]⟩ :=
    processItem_ok _ _ _ hco
  have hp : processAll ⟨0, none, false, false⟩ [⟨"a", PList [PInt 1]⟩] =
      .ok [⟨"a", transformVec ⟨0, none, false, false⟩ [((1 : ℤ) : ℝ)]⟩] :=
    processAll_cons _ _ _ _ _ hpi rfl
  have hrun := mainPipeline_ok (PDict [(PStr "a", PList [PInt 1])]) ⟨0, none, false, false⟩
    [⟨"a", PList [PInt 1]⟩] _ _ rfl rfl rfl hp
  exact ⟨_, hrun, output_document_header _ _ _ hrun⟩
